import Mathlib

/-!
Verification of the frappe / ffos recommender core against its specification.

The Python sources embedded here:
* `ffos/recommender/controller.py` — `InterfaceController.get_recommendation`
  (filter fold, stable descending sort, reranker fold, truncation) and
  `SimpleController.get_user_matrix` / `get_apps_matrix` (lookup, train, retry).
* `ffos/recommender/filters.py` — `Filter.__eq__`, `RepetitionFilter`,
  `RegionReRanker`, `CategoryReRanker`, `RepetitionReRanker`.
* `frappe/tools/region/__init__.py` — `SimpleRegionFilter`.

Python floats carrying scores are modelled as rationals extended with `-inf`
(the only non-finite value the code produces); machine rounding is irrelevant
to every claim checked here because scores are only compared, set to `-inf`,
or shifted by multiples of 1000.
-/

namespace Frappe

/-- A recommendation score: a finite float (modelled as a rational) or the
`float('-inf')` written by the suppression filters. -/
inductive Score where
  | ninf : Score
  | val : ℚ → Score
deriving DecidableEq

/-- Python float comparison `a <= b` on scores; `-inf` is below everything. -/
def Score.le : Score → Score → Bool
  | .ninf, _ => true
  | .val _, .ninf => false
  | .val a, .val b => decide (a ≤ b)

/-- Python float comparison `a < b` on scores. -/
def Score.lt (a b : Score) : Bool := !(Score.le b a)

theorem Score.leRefl (a : Score) : Score.le a a = true := by
  cases a <;> simp [Score.le]

theorem Score.leTotal (a b : Score) : Score.le a b = true ∨ Score.le b a = true := by
  cases a <;> cases b <;> simp [Score.le] <;> exact le_total _ _

theorem Score.leTrans {a b c : Score} (h₁ : Score.le a b = true)
    (h₂ : Score.le b c = true) : Score.le a c = true := by
  cases a <;> cases b <;> cases c <;> simp_all [Score.le] <;> exact h₁.trans h₂

theorem Score.leAntisymm {a b : Score} (h₁ : Score.le a b = true)
    (h₂ : Score.le b a = true) : a = b := by
  cases a <;> cases b <;> simp_all [Score.le]
  exact le_antisymm h₁ h₂

/-- A user as the controller sees it: a 1-based primary key and the list of
installed app keys (`user.installed_apps`). -/
structure PUser where
  pk : Nat
  installed_apps : List Nat

/-- filters.py, `RepetitionFilter.__call__`: for every installed app, set
`app_score[app.pk - 1] = float('-inf')`. -/
def repetitionFilterCall (user : PUser) (app_score : List Score) : List Score :=
  user.installed_apps.foldl (fun sc pk => sc.set (pk - 1) Score.ninf) app_score

/-- The comparator of controller.py line 174:
`sorted(enumerate(result), cmp=lambda x, y: cmp(y[1], x[1]))` places `x`
no later than `y` exactly when `y`'s score is at most `x`'s score. -/
def scoreDesc (x y : Nat × Score) : Prop := Score.le y.2 x.2 = true

instance : DecidableRel scoreDesc := fun x y =>
  inferInstanceAs (Decidable (Score.le y.2 x.2 = true))

instance : IsTotal (Nat × Score) scoreDesc :=
  ⟨fun x y => Score.leTotal y.2 x.2⟩

instance : IsTrans (Nat × Score) scoreDesc :=
  ⟨fun _ _ _ h₁ h₂ => Score.leTrans h₂ h₁⟩

/-- controller.py line 174, the sort of `enumerate(result)`: Python's `sorted`
is a stable sort by the comparator, embedded as a stable insertion sort. -/
def rankPairs (result : List Score) : List (Nat × Score) :=
  result.enum.insertionSort scoreDesc

/-- controller.py line 174 in full:
`[aid + 1 for aid, _ in sorted(enumerate(result), cmp=...)]`. -/
def rankKeys (result : List Score) : List Nat :=
  (rankPairs result).map (fun p => p.1 + 1)

/-- controller.py, `InterfaceController.get_recommendation`: fold the
registered filters over the significance vector, sort into 1-based keys, fold
the registered rerankers, truncate to `n`.  The significance vector (the
output of `get_app_significance_list`) is passed in directly. -/
def get_recommendation (filters : List (PUser → List Score → List Score))
    (rerankers : List (PUser → List Nat → List Nat))
    (user : PUser) (significance : List Score) (n : Nat) : List Nat :=
  let result := filters.foldl (fun acc f => f user acc) significance
  let ranked := rankKeys result
  let reranked := rerankers.foldl (fun acc f => f user acc) ranked
  reranked.take n

/-- Python exceptions raised by the reranker bodies. -/
inductive PyErr where
  | keyError : PyErr
  | valueError : PyErr
  | assertionError : PyErr
deriving DecidableEq

/-- filters.py `CategoryReRanker.PART = 0.33` used as `int(len(lst) * 0.33)`;
for every length a Python list can reach this equals `len * 33 / 100` in
integer arithmetic (the float 0.33 exceeds 33/100 by less than 4.5e-18). -/
def partLen (len : Nat) : Nat := len * 33 / 100

/-- filters.py lines 126-131, `CategoryReRanker.__call__` slot allocation:
`soma += int(mass*n); prefs += [cat]*int(mass*n); if soma > n/2.0: break`.
Masses are counts divided by a count, hence nonnegative, so Python's `int`
truncation agrees with `Int.toFloor` composed with `Int.toNat`. -/
def allocPrefs (n : Nat) : List (Nat × ℚ) → Nat → List Nat
  | [], _ => []
  | (cat, mass) :: rest, soma =>
    let k := (⌊mass * (n : ℚ)⌋).toNat
    let soma' := soma + k
    if ((n : ℚ) / 2 < (soma' : ℚ)) then List.replicate k cat
    else List.replicate k cat ++ allocPrefs n rest soma'

/-- Python dict lookup on the association list representing `acd`. -/
def dictFind (d : List (Nat × List Nat)) (k : Nat) : Option (List Nat) :=
  (d.find? (fun p => p.1 = k)).map (fun p => p.2)

/-- Python dict assignment `d[k] = v` on the association list. -/
def dictSet (d : List (Nat × List Nat)) (k : Nat) (v : List Nat) : List (Nat × List Nat) :=
  if (d.find? (fun p => p.1 = k)).isSome
  then d.map (fun p => if p.1 = k then (k, v) else p)
  else d ++ [(k, v)]

/-- filters.py lines 172-174, the dict-building loop of
`get_apps_category_dict`, including its slip: the update is
`acd[cat] = [] if cat not in acd else acd[cat] + [appID]`, so the first
app id seen for each category is discarded. -/
def buildACD (rs : List (Nat × Nat)) : List (Nat × List Nat) :=
  rs.foldl (fun acd p =>
    match dictFind acd p.2 with
    | none => dictSet acd p.2 []
    | some l => dictSet acd p.2 (l ++ [p.1])) []

/-- Modelled from the spec: the database query
`FFOSApp.objects.filter(id__in=part).values_list('id', 'categories__name')`
(the `FFOSApp` model lives outside these sources).  The spec gives each item a
set of category labels and has the reranker pull "the single highest-ranked"
item per category, so the rows are modelled as the prefix items in ranking
order, each paired with its category labels. -/
def appCategoryRows (itemCats : Nat → List Nat) (part : List Nat) : List (Nat × Nat) :=
  part.flatMap (fun a => (itemCats a).map (fun c => (a, c)))

/-- filters.py `CategoryReRanker.get_apps_category_dict` with a cold cache:
truncate to the top `PART` of the ranking, query the categories, fold the
dict-building loop. -/
def get_apps_category_dict (itemCats : Nat → List Nat) (sorted_tlist : List Nat) :
    List (Nat × List Nat) :=
  buildACD (appCategoryRows itemCats (sorted_tlist.take (partLen sorted_tlist.length)))

/-- filters.py lines 134-138: for each slot category take the first id in
`acd[cat]` not yet chosen; a category absent from the dict raises `KeyError`. -/
def pickAll (acd : List (Nat × List Nat)) : List Nat → List Nat → Except PyErr (List Nat)
  | [], to_add => .ok to_add
  | cat :: rest, to_add =>
    match dictFind acd cat with
    | none => .error .keyError
    | some ids =>
      match ids.find? (fun aid => !(to_add.contains aid)) with
      | some aid => pickAll acd rest (to_add ++ [aid])
      | none => pickAll acd rest to_add

/-- Python `list.remove` applied once per element of the second list: remove
the first occurrence of each id in turn; a missing id raises `ValueError`. -/
def removeAll : List Nat → List Nat → Except PyErr (List Nat)
  | l, [] => .ok l
  | l, a :: rest => if a ∈ l then removeAll (l.erase a) rest else .error .valueError

/-- Python slice endpoint normalisation: `l[:i]` is `l.take (pyIdx l.length i)`
and `l[i:]` is `l.drop (pyIdx l.length i)`, also for negative `i`. -/
def pyIdx (len : Nat) (i : Int) : Nat :=
  if i < 0 then ((len : Int) + i).toNat else min i.toNat len

/-- filters.py lines 141-146: `i = self.num_rec - len(to_add)` followed by
`app_score[:i] + to_add + app_score[i:]` (the expression the assert measures
and the return value alike). -/
def sliceInsert (num_rec : Nat) (to_add rest : List Nat) : List Nat :=
  rest.take (pyIdx rest.length ((num_rec : Int) - (to_add.length : Int)))
    ++ to_add
    ++ rest.drop (pyIdx rest.length ((num_rec : Int) - (to_add.length : Int)))

/-- filters.py `CategoryReRanker.__call__` with a cold cache.  The user
category profile `ucp` (sorted by descending mass, as
`get_user_category_profile` produces it) and the item-category relation are
inputs; the final length assert is the `assertionError` branch. -/
def categoryReRank (ucp : List (Nat × ℚ)) (itemCats : Nat → List Nat) (num_rec : Nat)
    (app_score : List Nat) : Except PyErr (List Nat) :=
  match pickAll (get_apps_category_dict itemCats app_score) (allocPrefs num_rec ucp 0) [] with
  | .error e => .error e
  | .ok to_add =>
    match removeAll app_score to_add with
    | .error e => .error e
    | .ok rest =>
      if (sliceInsert num_rec to_add rest).length = app_score.length
      then .ok (sliceInsert num_rec to_add rest)
      else .error .assertionError

/-- filters.py `RegionReRanker.__call__`: remove each region-unavailable id
(in the order the exclusion query returns them) and append them at the end. -/
def regionReRank (unavailable : List Nat) (app_score : List Nat) :
    Except PyErr (List Nat) :=
  match removeAll app_score unavailable with
  | .error e => .error e
  | .ok rest => .ok (rest ++ unavailable)

/-- filters.py `RepetitionReRanker.__call__`: remove the user's installed ids
and append them at the end in listing order. -/
def repetitionReRank (user_apps : List Nat) (app_score : List Nat) :
    Except PyErr (List Nat) :=
  match removeAll app_score user_apps with
  | .error e => .error e
  | .ok rest => .ok (rest ++ user_apps)

/-- A persisted `TensorModel` row: primary key, tensor dimension
(0 = user factors, 1 = item factors) and its matrix, abstracted to an
identifying label — the retry control flow never inspects matrix entries. -/
structure TensorRow where
  id : Nat
  dim : Nat
  numpy_matrix : Nat
deriving DecidableEq

/-- Descending order on row primary keys, as in `order_by('-id')`. -/
def tensorDesc (a b : TensorRow) : Prop := b.id ≤ a.id

instance : DecidableRel tensorDesc := fun a b =>
  inferInstanceAs (Decidable (b.id ≤ a.id))

/-- controller.py: `TensorModel.objects.filter(dim=d).order_by('-id')[0]` —
rows of the requested dimension, newest first, then element 0; `none` models
the `IndexError` raised on an empty query set. -/
def latestTensor (store : List TensorRow) (d : Nat) : Option TensorRow :=
  ((store.filter (fun r => r.dim = d)).insertionSort tensorDesc).head?

/-- Outcome of a fuelled run of the matrix getter: a matrix, or fuel exhausted
while the code was still retraining and retrying. -/
inductive FetchResult where
  | found : Nat → FetchResult
  | outOfFuel : FetchResult
deriving DecidableEq

/-- controller.py `SimpleController.get_user_matrix` (`d = 0`) and
`get_apps_matrix` (`d = 1`): look up the newest row; on `IndexError` call
`TensorModel.train()` (modelled from the spec as an opaque store update, its
code lives outside these sources) and recurse.  The recursion is unbounded in
the source, so it is embedded with fuel; the second component counts the
`train()` invocations performed. -/
def get_matrix_fueled (train : List TensorRow → List TensorRow) (d : Nat) :
    Nat → List TensorRow → FetchResult × Nat
  | 0, _ => (.outOfFuel, 0)
  | fuel + 1, store =>
    match latestTensor store d with
    | some row => (.found row.numpy_matrix, 0)
    | none =>
      let r := get_matrix_fueled train d fuel (train store)
      (r.1, r.2 + 1)

/-- frappe/tools/region, `np.sum(user_regions, axis=0)` at index `i`: how many
of the user's per-region membership vectors mark item `i` available. -/
def regionMembership (user_regions : List (List Bool)) (i : Nat) : Nat :=
  (user_regions.map (fun v => if v.getD i false then 1 else 0)).sum

/-- frappe/tools/region/__init__.py `SimpleRegionFilter.__call__`: the
per-region boolean vectors (`Region.get_item_list_by_region`, one per tag in
`Region.get_user_regions`, both plain lookups outside these sources) are
inputs; when at least one region tag exists, add `(sum - 1) * 1000`
elementwise to the recommendation vector. -/
def simpleRegionFilterCall (user_regions : List (List Bool))
    (recommendation : List ℚ) : List ℚ :=
  if user_regions.length = 0 then recommendation
  else recommendation.enum.map
    (fun p => p.2 + ((regionMembership user_regions p.1 : ℚ) - 1) * 1000)

/-- The concrete `Filter` subclasses of filters.py. -/
inductive FilterCls where
  | filterBase : FilterCls
  | repetitionFilter : FilterCls
  | localeFilter : FilterCls
  | reRankerBase : FilterCls
  | regionReRanker : FilterCls
  | categoryReRanker : FilterCls
  | repetitionReRanker : FilterCls
deriving DecidableEq

/-- A filter instance: its class and the only constructor parameter in the
file (`CategoryReRanker.__init__(self, n=4)` stores `num_rec`). -/
structure FilterObj where
  cls : FilterCls
  num_rec : Option Nat := none
deriving DecidableEq

/-- filters.py `Filter.cmp_params`: compares no parameters, returns `True`. -/
def cmp_params (_self _other : FilterObj) : Bool := true

/-- Python attribute lookup for the name written `other.__class` inside class
`Filter`: name mangling turns it into `other._Filter__class`, an attribute no
object in the file defines, so the lookup fails for every filter instance. -/
def getattrMangledClass (_obj : FilterObj) : Option FilterCls := none

/-- Result of `Filter.__eq__`: a boolean, or an `AttributeError` escape. -/
inductive EqResult where
  | ok : Bool → EqResult
  | attributeError : EqResult
deriving DecidableEq

/-- filters.py `Filter.__eq__`:
`return self.__class__ == other.__class and self.cmp_params(other)`. -/
def filterEqCall (self other : FilterObj) : EqResult :=
  match getattrMangledClass other with
  | none => .attributeError
  | some c => .ok (decide (self.cls = c) && cmp_params self other)

/-! Helper lemmas about the embedded operations. -/

theorem removeAll_ok_length : ∀ {l t r : List Nat}, removeAll l t = .ok r →
    r.length + t.length = l.length := by
  intro l t
  induction t generalizing l with
  | nil =>
    intro r h
    simp only [removeAll, Except.ok.injEq] at h
    simp [← h]
  | cons a rest ih =>
    intro r h
    simp only [removeAll] at h
    by_cases ha : a ∈ l
    · rw [if_pos ha] at h
      have hlen := ih h
      rw [List.length_erase_of_mem ha] at hlen
      have : 0 < l.length := List.length_pos.mpr (List.ne_nil_of_mem ha)
      simp only [List.length_cons]
      omega
    · rw [if_neg ha] at h
      cases h

theorem removeAll_ok_perm : ∀ {l t r : List Nat}, removeAll l t = .ok r →
    (t ++ r).Perm l := by
  intro l t
  induction t generalizing l with
  | nil =>
    intro r h
    simp only [removeAll, Except.ok.injEq] at h
    simp [← h]
  | cons a rest ih =>
    intro r h
    simp only [removeAll] at h
    by_cases ha : a ∈ l
    · rw [if_pos ha] at h
      have hperm := ih h
      exact ((hperm.cons a).trans (List.perm_cons_erase ha).symm)
    · rw [if_neg ha] at h
      cases h

theorem removeAll_ok_filter : ∀ {l t r : List Nat}, l.Nodup →
    removeAll l t = .ok r → r = l.filter (fun x => !(t.contains x)) := by
  intro l t
  induction t generalizing l with
  | nil =>
    intro r _ h
    simp only [removeAll, Except.ok.injEq] at h
    simp [← h]
  | cons a rest ih =>
    intro r hnd h
    simp only [removeAll] at h
    by_cases ha : a ∈ l
    · rw [if_pos ha] at h
      have hr := ih (hnd.erase a) h
      rw [hr, List.Nodup.erase_eq_filter hnd a, List.filter_filter]
      apply List.filter_congr
      intro x _
      by_cases hxa : x = a <;> simp [hxa]
    · rw [if_neg ha] at h
      cases h

theorem removeAll_ne_assert : ∀ (l t : List Nat),
    removeAll l t ≠ .error .assertionError := by
  intro l t
  induction t generalizing l with
  | nil => simp [removeAll]
  | cons a rest ih =>
    simp only [removeAll]
    by_cases ha : a ∈ l
    · rw [if_pos ha]; exact ih _
    · rw [if_neg ha]; simp

theorem pickAll_ne_assert (acd : List (Nat × List Nat)) : ∀ (prefs t : List Nat),
    pickAll acd prefs t ≠ .error .assertionError := by
  intro prefs
  induction prefs with
  | nil => simp [pickAll]
  | cons cat rest ih =>
    intro t
    simp only [pickAll]
    split
    · simp
    · split
      · exact ih _
      · exact ih _

theorem sliceInsert_length (num_rec : Nat) (to_add rest : List Nat) :
    (sliceInsert num_rec to_add rest).length = rest.length + to_add.length := by
  simp only [sliceInsert, List.length_append, List.length_take, List.length_drop]
  omega

theorem sliceInsert_perm (num_rec : Nat) (to_add rest : List Nat) :
    (sliceInsert num_rec to_add rest).Perm (to_add ++ rest) := by
  have h1 := List.perm_append_comm_assoc
    (rest.take (pyIdx rest.length ((num_rec : Int) - (to_add.length : Int))))
    to_add
    (rest.drop (pyIdx rest.length ((num_rec : Int) - (to_add.length : Int))))
  rw [List.take_append_drop] at h1
  simpa [sliceInsert, List.append_assoc] using h1

theorem categoryReRank_shape (ucp : List (Nat × ℚ)) (itemCats : Nat → List Nat)
    (num_rec : Nat) (l : List Nat) :
    categoryReRank ucp itemCats num_rec l ≠ .error .assertionError ∧
    ∀ out, categoryReRank ucp itemCats num_rec l = .ok out →
      out.length = l.length ∧ out.Perm l := by
  constructor
  · intro hcon
    rw [categoryReRank] at hcon
    split at hcon
    · rename_i e heq
      cases hcon
      exact pickAll_ne_assert _ _ _ heq
    · rename_i to_add heq
      split at hcon
      · rename_i e hrem
        cases hcon
        exact removeAll_ne_assert _ _ hrem
      · rename_i rest hrem
        split at hcon
        · cases hcon
        · rename_i hcond
          apply hcond
          have hlen := removeAll_ok_length hrem
          rw [sliceInsert_length]
          omega
  · intro out hout
    rw [categoryReRank] at hout
    split at hout
    · cases hout
    · rename_i to_add heq
      split at hout
      · cases hout
      · rename_i rest hrem
        split at hout
        · rename_i hcond
          cases hout
          refine ⟨hcond, ?_⟩
          exact (sliceInsert_perm _ _ _).trans (removeAll_ok_perm hrem)
        · cases hout

theorem enum_pairwise_fst {α : Type} (l : List α) :
    l.enum.Pairwise (fun a b => a.1 < b.1) := by
  have h : (l.enum.map Prod.fst).Pairwise (fun a b => a < b) := by
    rw [List.enum_map_fst]
    exact List.sorted_lt_range l.length
  exact List.pairwise_map.mp h

theorem enum_nodup {α : Type} (l : List α) : l.enum.Nodup := by
  have h := enum_pairwise_fst l
  exact h.imp fun hab he => absurd (he ▸ hab) (lt_irrefl _)

theorem pair_sublist_of_rel {α : Type} {R : α → α → Prop}
    (hasymm : ∀ a b, R a b → ¬ R b a) :
    ∀ {l : List α}, l.Pairwise R → ∀ {x y : α}, x ∈ l → y ∈ l → R x y →
      [x, y].Sublist l := by
  intro l
  induction l with
  | nil => intro _ x y hx; cases hx
  | cons c t ih =>
    intro hp x y hx hy hxy
    rcases List.mem_cons.mp hx with rfl | hx'
    · have hy' : y ∈ t := by
        rcases List.mem_cons.mp hy with rfl | h
        · exact absurd hxy (hasymm _ _ hxy)
        · exact h
      exact List.Sublist.cons₂ x (List.singleton_sublist.mpr hy')
    · rcases List.mem_cons.mp hy with rfl | hy'
      · have hcx := (List.pairwise_cons.mp hp).1 x hx'
        exact absurd hxy (hasymm _ _ hcx)
      · exact (ih (List.pairwise_cons.mp hp).2 hx' hy' hxy).cons c

theorem pair_sublist_antisymm {α : Type} [DecidableEq α] :
    ∀ {l : List α} {a b : α}, l.Nodup →
      [a, b].Sublist l → [b, a].Sublist l → a = b := by
  intro l
  induction l with
  | nil => intro a b _ h; cases h
  | cons c t ih =>
    intro a b hnd h1 h2
    cases h1 with
    | cons _ h1' =>
      cases h2 with
      | cons _ h2' => exact ih hnd.of_cons h1' h2'
      | cons₂ _ h2' =>
        have hc : c ∈ t := h1'.subset (List.mem_cons_of_mem _ (by simp))
        exact absurd hc (List.nodup_cons.mp hnd).1
    | cons₂ _ h1' =>
      cases h2 with
      | cons _ h2' =>
        have hc : c ∈ t := h2'.subset (List.mem_cons_of_mem _ (by simp))
        exact absurd hc (List.nodup_cons.mp hnd).1
      | cons₂ _ h2' => rfl

/-! The claims. -/

/-- C1: with 3 items, a user whose installed items are exactly `[2]`, raw
scores `[0.5, 0.9, 0.1]`, the installed-item suppression filter registered and
no rerankers: the post-filter vector is `[0.5, -inf, 0.1]`, the sorted key
list is `[1, 3, 2]`, and `get_recommendation(user, n=10)` returns
`[1, 3, 2]`. -/
theorem C1_concrete_pipeline :
    repetitionFilterCall ⟨7, [2]⟩ [Score.val 0.5, Score.val 0.9, Score.val 0.1]
      = [Score.val 0.5, Score.ninf, Score.val 0.1]
    ∧ rankKeys [Score.val 0.5, Score.ninf, Score.val 0.1] = [1, 3, 2]
    ∧ get_recommendation [repetitionFilterCall] [] ⟨7, [2]⟩
        [Score.val 0.5, Score.val 0.9, Score.val 0.1] 10 = [1, 3, 2] := by
  refine ⟨?_, ?_, ?_⟩
  · norm_num [repetitionFilterCall, List.set]
  · norm_num [rankKeys, rankPairs, List.insertionSort, List.orderedInsert,
      scoreDesc, Score.le, List.enum, List.enumFrom]
  · norm_num [get_recommendation, repetitionFilterCall, rankKeys, rankPairs,
      List.insertionSort, List.orderedInsert, scoreDesc, Score.le, List.enum,
      List.enumFrom, List.set]

/-- C2 counterexample: the claim says that after an absent lookup, one
training round and a second absent lookup the call fails rather than retrying
again, i.e. at most one `train()` invocation ever happens; but on a store
that stays empty the code keeps training and retrying — three fuel steps
already perform three `train()` calls. -/
theorem C2_retry_counterexample :
    ¬ ((get_matrix_fueled (fun s => s) 0 3 []).2 ≤ 1) := by decide

/-- C2 amended: on an absent lookup the provider calls `train()` and retries
recursively without bound.  If training makes a row of the requested dimension
appear, the retry returns it after exactly one `train()` call; if the store
stays empty forever, the call never raises any `ModelUnavailable`-style error
but loops, consuming every amount of fuel with one `train()` per step. -/
theorem C2_matrix_retry_amended :
    (∀ (train : List TensorRow → List TensorRow) (d : Nat) (s : List TensorRow)
        (row : TensorRow) (fuel : Nat),
        latestTensor s d = none → latestTensor (train s) d = some row →
        get_matrix_fueled train d (fuel + 2) s = (.found row.numpy_matrix, 1))
    ∧ ∀ fuel, get_matrix_fueled (fun s => s) 0 fuel [] = (.outOfFuel, fuel) := by
  constructor
  · intro train d s row fuel h1 h2
    simp [get_matrix_fueled, h1, h2]
  · intro fuel
    induction fuel with
    | zero => rfl
    | succ n ih =>
      simp [get_matrix_fueled, latestTensor, List.insertionSort, ih]

/-- C2 witness: a store where training inserts the row, and the forever-empty
store. -/
theorem C2_matrix_retry_witness :
    get_matrix_fueled (fun _ => [⟨1, 0, 42⟩]) 0 2 [] = (.found 42, 1)
    ∧ get_matrix_fueled (fun s => s) 0 5 [] = (.outOfFuel, 5) :=
  ⟨C2_matrix_retry_amended.1 (fun _ => [⟨1, 0, 42⟩]) 0 [] ⟨1, 0, 42⟩ 0 rfl rfl,
   C2_matrix_retry_amended.2 5⟩

/-- C3: the controller's sort step orders the enumerated score pairs
descending by score, and between equal scores the pair with the lower
internal key (lower index, hence lower 1-based key) comes first. -/
theorem C3_sort_descending_stable (scores : List Score) :
    (rankPairs scores).Pairwise (fun x y =>
      Score.lt y.2 x.2 = true ∨ (x.2 = y.2 ∧ x.1 + 1 < y.1 + 1)) := by
  rw [List.pairwise_iff_forall_sublist]
  intro x y hsub
  have hsorted : (rankPairs scores).Pairwise scoreDesc :=
    List.sorted_insertionSort scoreDesc scores.enum
  have hle : scoreDesc x y := List.pairwise_iff_forall_sublist.mp hsorted hsub
  have hnd : (rankPairs scores).Nodup :=
    (List.perm_insertionSort scoreDesc scores.enum).nodup_iff.mpr (enum_nodup scores)
  by_cases heq : x.2 = y.2
  · right
    refine ⟨heq, Nat.add_lt_add_right ?_ 1⟩
    have hne : x ≠ y := List.pairwise_iff_forall_sublist.mp hnd hsub
    have hfst : x.1 ≠ y.1 := fun h => hne (Prod.ext h heq)
    rcases Nat.lt_or_ge x.1 y.1 with hlt | hge
    · exact hlt
    · exfalso
      have hylt : y.1 < x.1 := lt_of_le_of_ne hge fun h => hfst h.symm
      have hx : x ∈ scores.enum :=
        (List.perm_insertionSort scoreDesc scores.enum).subset (hsub.subset (by simp))
      have hy : y ∈ scores.enum :=
        (List.perm_insertionSort scoreDesc scores.enum).subset (hsub.subset (by simp))
      have hyx : [y, x].Sublist scores.enum :=
        pair_sublist_of_rel (fun _ _ hab hba => Nat.lt_asymm hab hba)
          (enum_pairwise_fst scores) hy hx hylt
      have hdesc : scoreDesc y x := by
        show Score.le x.2 y.2 = true
        rw [heq]
        exact Score.leRefl _
      have hsub2 : [y, x].Sublist (rankPairs scores) :=
        List.pair_sublist_insertionSort hdesc hyx
      exact hne (pair_sublist_antisymm hnd hsub hsub2)
  · left
    have hba : Score.le x.2 y.2 = false := by
      cases hc : Score.le x.2 y.2 with
      | false => rfl
      | true => exact absurd (Score.leAntisymm hc hle) heq
    simp [Score.lt, hba]

/-- C4: evaluation at a failing input.  Ten items ranked `[1, ..., 10]`, all
of category 17, a profile giving category 17 the whole mass, `n = 4`: the
top-33% part is `[1, 2, 3]`, yet the category dict lists only `[2, 3]` — the
dict-building line `acd[cat] = [] if cat not in acd else acd[cat] + [appID]`
drops the first (highest-ranked) item of each category — so the reranker
picks `[2, 3]` instead of the claimed highest-ranked choices led by item 1,
returning `[1, 4, 2, 3, 5, 6, 7, 8, 9, 10]`. -/
theorem C4_category_pick_eval :
    dictFind (get_apps_category_dict (fun _ => [17]) [1, 2, 3, 4, 5, 6, 7, 8, 9, 10]) 17
      = some [2, 3]
    ∧ categoryReRank [(17, 1)] (fun _ => [17]) 4 [1, 2, 3, 4, 5, 6, 7, 8, 9, 10]
      = .ok [1, 4, 2, 3, 5, 6, 7, 8, 9, 10] := by
  have halloc : allocPrefs 4 [(17, 1)] 0 = [17, 17, 17, 17] := by
    norm_num [allocPrefs]
    decide
  refine ⟨rfl, ?_⟩
  unfold categoryReRank
  rw [halloc]
  rfl

/-- C5 counterexample: for ranking `[3, 1, 2]` with unavailable ids `[1, 3]`
(as the exclusion query lists them) the code returns `[2, 1, 3]`, whereas the
claim — unavailable ids at the end in their original ranking order — demands
`[2, 3, 1]`. -/
theorem C5_region_list_counterexample :
    regionReRank [1, 3] [3, 1, 2] = .ok [2, 1, 3]
    ∧ ¬ ([2, 1, 3]
        = List.filter (fun x => !(([1, 3] : List Nat).contains x)) [3, 1, 2]
          ++ List.filter (fun x => ([1, 3] : List Nat).contains x) [3, 1, 2]) :=
  ⟨rfl, by decide⟩

/-- C5 amended: on a duplicate-free ranking the region-available ids keep
their original relative order and all unavailable ids appear strictly after
them — but the unavailable ids come in the order of the exclusion query
listing, not necessarily their original ranking order. -/
theorem C5_region_list_amended (u l out : List Nat) (hl : l.Nodup)
    (h : regionReRank u l = .ok out) :
    out = l.filter (fun x => !(u.contains x)) ++ u := by
  rw [regionReRank] at h
  split at h
  · cases h
  · rename_i rest hrem
    cases h
    rw [removeAll_ok_filter hl hrem]

/-- C5 witness at a concrete duplicate-free ranking. -/
theorem C5_region_list_witness :
    ([1, 2] : List Nat)
      = List.filter (fun x => !(([2] : List Nat).contains x)) [1, 2] ++ [2] :=
  C5_region_list_amended [2] [1, 2] [1, 2] (by decide) rfl

/-- C6 counterexample: an item available in two of the user's regions has
membership sum 2, and its score is boosted by +1000 instead of staying
unchanged as the claim asserts for items available in at least one region. -/
theorem C6_region_penalty_counterexample :
    1 ≤ regionMembership [[true], [true]] 0
    ∧ (simpleRegionFilterCall [[true], [true]] [1/2]).getD 0 0 ≠ (1/2 : ℚ) := by
  constructor
  · decide
  · norm_num [simpleRegionFilterCall, regionMembership, List.enum, List.enumFrom]

/-- C6 amended: with at least one region tag the filter adds
`(sum - 1) * 1000` to every entry, where `sum` counts the user's regions in
which the item is available: `-1000` when the sum is 0, unchanged exactly when
the sum is 1 (a sum of 2 or more yields a positive boost). -/
theorem C6_region_penalty_amended (vs : List (List Bool)) (rec : List ℚ)
    (hvs : vs ≠ []) (i : Nat) (hi : i < rec.length) :
    (simpleRegionFilterCall vs rec).getD i 0
      = rec.getD i 0 + ((regionMembership vs i : ℚ) - 1) * 1000
    ∧ (regionMembership vs i = 0 →
        (simpleRegionFilterCall vs rec).getD i 0 = rec.getD i 0 - 1000)
    ∧ (regionMembership vs i = 1 →
        (simpleRegionFilterCall vs rec).getD i 0 = rec.getD i 0) := by
  have hlen0 : vs.length ≠ 0 := fun h => hvs (List.length_eq_zero.mp h)
  have hmain : (simpleRegionFilterCall vs rec).getD i 0
      = rec.getD i 0 + ((regionMembership vs i : ℚ) - 1) * 1000 := by
    rw [simpleRegionFilterCall, if_neg hlen0]
    have hlen : i < (rec.enum.map
        (fun p => p.2 + ((regionMembership vs p.1 : ℚ) - 1) * 1000)).length := by
      simpa using hi
    rw [List.getD_eq_getElem _ _ hlen, List.getElem_map, List.getElem_enum,
      List.getD_eq_getElem _ _ hi]
  refine ⟨hmain, fun h0 => ?_, fun h1 => ?_⟩
  · rw [hmain, h0]
    push_cast
    ring
  · rw [hmain, h1]
    push_cast
    ring

/-- C6 witness: a single region vector marking the only item unavailable. -/
theorem C6_region_penalty_witness :
    (simpleRegionFilterCall [[false]] [2]).getD 0 0
      = ([2] : List ℚ).getD 0 0 + ((regionMembership [[false]] 0 : ℚ) - 1) * 1000 :=
  (C6_region_penalty_amended [[false]] [2] (by decide) 0 (by decide)).1

/-- C7: `Filter.__eq__` never decides same-class-and-equal-parameters — the
misspelt `other.__class` attribute raises `AttributeError` even for two
equivalent `RepetitionFilter` instances, where the claim expects `True`. -/
theorem C7_filter_eq_eval :
    filterEqCall ⟨FilterCls.repetitionFilter, none⟩ ⟨FilterCls.repetitionFilter, none⟩
      = EqResult.attributeError
    ∧ EqResult.attributeError ≠ EqResult.ok true :=
  ⟨rfl, by decide⟩

/-- C8: the Category Reranker's result always has the input's length and the
length assert never fires: the `assertionError` branch is unreachable (with
no precondition at all — a missing picked id already fails earlier as
`ValueError`). -/
theorem C8_category_length (ucp : List (Nat × ℚ)) (itemCats : Nat → List Nat)
    (num_rec : Nat) (app_score : List Nat) :
    categoryReRank ucp itemCats num_rec app_score ≠ .error .assertionError
    ∧ ∀ out, categoryReRank ucp itemCats num_rec app_score = .ok out →
        out.length = app_score.length := by
  obtain ⟨h1, h2⟩ := categoryReRank_shape ucp itemCats num_rec app_score
  exact ⟨h1, fun out hout => (h2 out hout).1⟩

/-- C8 witness at a concrete run that returns normally. -/
theorem C8_category_length_witness :
    categoryReRank [] (fun _ => []) 4 [1, 2, 3] ≠ .error .assertionError
    ∧ ([1, 2, 3] : List Nat).length = ([1, 2, 3] : List Nat).length :=
  ⟨(C8_category_length [] (fun _ => []) 4 [1, 2, 3]).1,
   (C8_category_length [] (fun _ => []) 4 [1, 2, 3]).2 [1, 2, 3] rfl⟩

/-- C9: every reranker output that returns normally is a permutation of its
input ranking — region list form, category, and repetition. -/
theorem C9_reranker_perm :
    (∀ (u l out : List Nat), regionReRank u l = .ok out → out.Perm l)
    ∧ (∀ (ucp : List (Nat × ℚ)) (itemCats : Nat → List Nat) (num_rec : Nat)
        (l out : List Nat),
        categoryReRank ucp itemCats num_rec l = .ok out → out.Perm l)
    ∧ (∀ (user_apps l out : List Nat),
        repetitionReRank user_apps l = .ok out → out.Perm l) := by
  refine ⟨?_, ?_, ?_⟩
  · intro u l out h
    rw [regionReRank] at h
    split at h
    · cases h
    · rename_i rest hrem
      cases h
      exact List.perm_append_comm.trans (removeAll_ok_perm hrem)
  · intro ucp itemCats num_rec l out h
    exact ((categoryReRank_shape ucp itemCats num_rec l).2 out h).2
  · intro apps l out h
    rw [repetitionReRank] at h
    split at h
    · cases h
    · rename_i rest hrem
      cases h
      exact List.perm_append_comm.trans (removeAll_ok_perm hrem)

/-- C9 witness: one normal run of each reranker. -/
theorem C9_reranker_perm_witness :
    ([4] : List Nat).Perm [4] ∧ ([1, 2, 3] : List Nat).Perm [1, 2, 3]
    ∧ ([1, 2] : List Nat).Perm [1, 2] :=
  ⟨C9_reranker_perm.1 [] [4] [4] rfl,
   C9_reranker_perm.2.1 [] (fun _ => []) 4 [1, 2, 3] [1, 2, 3] rfl,
   C9_reranker_perm.2.2 [2] [1, 2] [1, 2] rfl⟩

/-- C10: a user whose region lookup yields no region tags gets the
recommendation vector back completely unchanged. -/
theorem C10_region_empty_identity (recommendation : List ℚ) :
    simpleRegionFilterCall [] recommendation = recommendation := by
  simp [simpleRegionFilterCall]

end Frappe
